import Mathlib

/-
  Verification development for the MultiSig transaction coordinator.

  Shallow embedding of the JavaScript sources:
    - txStore.js : the in-memory session store (createTxRecord, addWitness,
      status, clearTx), the value-arithmetic helpers (addAssetsToValue,
      valueToJs, jsAssetsAdd, jsAssetsFromOutputSpec, jsAssetsSub,
      jsAssetsIsEmpty, jsAssetsToValue, bumpAdaIfTokens, mergeValue) and the
      explicit-change transaction builder buildUnsignedTx with its fixed
      1 ADA fee.
    - the server (unnamed part) : the HTTP endpoint bodies for /api/create,
      /api/witness, /api/submit and /api/reset, the witness assembler
      assembleAndSerializeTx, and the native-script analyzer
      (collectScriptInfo, deriveSummary).

  Modelling conventions:
    - JavaScript strings (hex strings, bech32 addresses, identifiers) are byte
      lists (List Nat); String.prototype.toLowerCase restricted to the ASCII
      range (all strings involved are hex or bech32) is lowerStr.
    - JavaScript Map objects are association lists with the exact Map
      semantics: set on an existing key updates it in place, a new key is
      appended at the end; iteration follows that order.  JavaScript Set
      objects are duplicate-free lists in insertion order (setAdd, jsSetOf).
    - BigInt quantities are Nat (they arrive as non-negative decimal strings
      on the wire); the sign test of jsAssetsSub is taken on Int.
    - Data produced by the external cardano-serialization-lib is carried by
      structures holding exactly what the JavaScript feeds or reads
      (CBOR (de)serialization is injective, so byte equality of serialized
      artifacts is structural equality of these values); hashing and the
      Blockfrost gateway are external, so the UTxO list is an argument of the
      builder and the gateway verdict is an argument of the submit endpoint.
-/

set_option maxRecDepth 4096

namespace MultiSig

/-- JavaScript strings modelled as byte lists (all strings involved are ASCII). -/
abbrev Str := List Nat

/-- One character of String.prototype.toLowerCase on the ASCII range. -/
def lowerByte (b : Nat) : Nat := if 65 ≤ b ∧ b ≤ 90 then b + 32 else b

/-- String.prototype.toLowerCase on the strings this system handles (ASCII). -/
def lowerStr (s : Str) : Str := s.map lowerByte

/-! JavaScript Map semantics over association lists: set updates an existing
    key in place and appends a fresh key; get scans for the key; delete
    removes it. -/

def mapSet {α : Type} : List (Str × α) → Str → α → List (Str × α)
  | [], k, v => [(k, v)]
  | (k0, v0) :: rest, k, v =>
    if k0 = k then (k0, v) :: rest else (k0, v0) :: mapSet rest k v

def mapGet {α : Type} : List (Str × α) → Str → Option α
  | [], _ => none
  | (k0, v0) :: rest, k => if k0 = k then some v0 else mapGet rest k

def mapDelete {α : Type} : List (Str × α) → Str → List (Str × α)
  | [], _ => []
  | (k0, v0) :: rest, k => if k0 = k then rest else (k0, v0) :: mapDelete rest k

/-- JavaScript Set.add: keep insertion order, ignore duplicates. -/
def setAdd (s : List Str) (x : Str) : List Str := if x ∈ s then s else s ++ [x]

/-- new Set(list) followed by Array.from: the list deduplicated in order. -/
def jsSetOf (l : List Str) : List Str := l.foldl setAdd []

/-- Decidable equality for Except results (not provided by core). -/
instance {ε α : Type} [DecidableEq ε] [DecidableEq α] : DecidableEq (Except ε α)
  | Except.ok x, Except.ok y =>
    if h : x = y then isTrue (by rw [h]) else isFalse (by simp [h])
  | Except.ok _, Except.error _ => isFalse (by simp)
  | Except.error _, Except.ok _ => isFalse (by simp)
  | Except.error e, Except.error f =>
    if h : e = f then isTrue (by rw [h]) else isFalse (by simp [h])

/-! ## Value arithmetic (txStore.js, multisig helpers section) -/

/-- Inner asset map of one policy: asset-name hex to quantity. -/
abbrev Assets := List (Str × Nat)

/-- Multi-asset map: policy-id hex to inner asset map. -/
abbrev MultiAsset := List (Str × Assets)

/-- A CSL Value as the JavaScript sees it: a coin plus an optional multiasset
    (CSL's value.multiasset() returns undefined when never set). -/
structure ValueC where
  coin : Nat
  ma : Option MultiAsset
  deriving DecidableEq

/-- One row of a Blockfrost amount array: unit is "lovelace" or
    policy(56 hex) ++ assetNameHex; quantity is a decimal string. -/
structure Amt where
  unit : Str
  quantity : Nat
  deriving DecidableEq

/-- A Blockfrost UTxO row. -/
structure Utxo where
  txHash : Str
  outputIndex : Nat
  amount : List Amt
  deriving DecidableEq

/-- The byte string "lovelace". -/
def lovelaceStr : Str := [108, 111, 118, 101, 108, 97, 99, 101]

/-- addAssetsToValue(value, assets) of txStore.js: fold the wire asset rows
    into the value's multiasset, splitting each unit at 56 hex chars. -/
def addAssetsToValue (value : ValueC) (assets : List Amt) : ValueC :=
  if assets.isEmpty then value else
  let ma0 := value.ma.getD []
  let ma := assets.foldl (fun ma a =>
    let unit := lowerStr a.unit
    let policy := unit.take 56
    let nameHex := unit.drop 56
    let inner := (mapGet ma policy).getD []
    let inner := mapSet inner nameHex
      (match mapGet inner nameHex with
       | some prev => prev + a.quantity
       | none => a.quantity)
    mapSet ma policy inner) ma0
  { value with ma := some ma }

/-- mergeValue(a, b) of txStore.js: add the coins, alias a's multiasset into
    the output, then merge b's multiasset entrywise. -/
def mergeValue (a b : ValueC) : ValueC :=
  let outCoin := a.coin + b.coin
  match b.ma with
  | none => { coin := outCoin, ma := a.ma }
  | some mb =>
    let merged := mb.foldl (fun merged pb =>
      let dAssets := (mapGet merged pb.1).getD []
      let dAssets := pb.2.foldl (fun d nb =>
        mapSet d nb.1
          (match mapGet d nb.1 with
           | some cur => cur + nb.2
           | none => nb.2)) dAssets
      mapSet merged pb.1 dAssets) (a.ma.getD [])
    { coin := outCoin, ma := some merged }

/-- The JS-side view of a value: coin plus a Map of Maps. -/
structure ValueJs where
  coin : Nat
  assets : MultiAsset
  deriving DecidableEq

/-- valueToJs(value) of txStore.js: read a CSL value back into JS maps. -/
def valueToJs (value : ValueC) : ValueJs :=
  match value.ma with
  | none => { coin := value.coin, assets := [] }
  | some ma =>
    let assets := ma.foldl (fun out pp =>
      let m := (mapGet out pp.1).getD []
      let m := pp.2.foldl (fun m nn =>
        mapSet m nn.1
          (match mapGet m nn.1 with
           | some c => c + nn.2
           | none => nn.2)) m
      mapSet out pp.1 m) []
    { coin := value.coin, assets := assets }

/-- jsAssetsAdd(dst, add) of txStore.js (functional: returns the updated dst). -/
def jsAssetsAdd (dst add : MultiAsset) : MultiAsset :=
  add.foldl (fun dst pp =>
    let d := (mapGet dst pp.1).getD []
    let d := pp.2.foldl (fun d nn =>
      mapSet d nn.1
        (match mapGet d nn.1 with
         | some c => c + nn.2
         | none => nn.2)) d
    mapSet dst pp.1 d) dst

/-- jsAssetsFromOutputSpec(specAssets) of txStore.js. -/
def jsAssetsFromOutputSpec (specAssets : List Amt) : MultiAsset :=
  specAssets.foldl (fun m a =>
    let unit := lowerStr a.unit
    let pid := unit.take 56
    let nm := unit.drop 56
    let d := (mapGet m pid).getD []
    let d := mapSet d nm
      (match mapGet d nm with
       | some c => c + a.quantity
       | none => a.quantity)
    mapSet m pid d) []

/-- The error kinds thrown by the builder (JS throws Error strings). -/
inductive BuildErr where
  | missingLovelace
  | destMissing
  | insufficientAda
  | insufficientTokens
  | changeBelowMinAda
  deriving DecidableEq

/-- jsAssetsSub(a, b) of txStore.js: a - b over the support of a, throwing
    when a present entry would go negative, pruning zero results.  (The JS
    null resInner is the empty list: it is set only on a positive diff.) -/
def jsAssetsSub (a b : MultiAsset) : Except BuildErr MultiAsset :=
  a.foldlM (fun out pp => do
    let innerB := (mapGet b pp.1).getD []
    let resInner ← pp.2.foldlM (fun resInner nn => do
      let qb := (mapGet innerB nn.1).getD 0
      let diff : Int := (nn.2 : Int) - (qb : Int)
      if diff < 0 then Except.error BuildErr.insufficientTokens
      else if 0 < diff then pure (mapSet resInner nn.1 diff.toNat)
      else pure resInner) ([] : Assets)
    if resInner.isEmpty then pure out else pure (mapSet out pp.1 resInner)) []

/-- jsAssetsIsEmpty(m) of txStore.js: no inner map has an entry. -/
def jsAssetsIsEmpty (m : MultiAsset) : Bool :=
  m.all (fun pp => pp.2.isEmpty)

/-- jsAssetsToValue(value, assetsMap) of txStore.js: rebuild the CSL
    multiasset from the JS map (the loops copy the entries in order, so the
    result is the same association list). -/
def jsAssetsToValue (value : ValueC) (assetsMap : MultiAsset) : ValueC :=
  { value with ma := some assetsMap }

/-- MIN_ADA_LOVELACE default (2,000,000). -/
def MIN_ADA : Nat := 2000000

/-- FIXED_FEE_LOVELACE default (1 ADA). -/
def FIXED_FEE : Nat := 1000000

/-- bumpAdaIfTokens(value) of txStore.js / multisig.js. -/
def bumpAdaIfTokens (value : ValueC) : ValueC :=
  match value.ma with
  | none => value
  | some _ => if value.coin < MIN_ADA then { value with coin := MIN_ADA } else value

/-! ## The transaction builder (txStore.js, buildUnsignedTx)

    This is the explicit-change variant: it sums all UTxOs, computes the
    output list and a change value by JS-side arithmetic, sets the fixed
    1 ADA fee, and hands the exact computed outputs to the CSL transaction
    builder (which serializes them as given; it does not re-check
    conservation).  Protocol parameters only feed the CSL fee algorithm,
    which the fixed fee bypasses, and the Blockfrost calls are external, so
    the UTxO list is an argument here. -/

/-- The build mode: "sendAll" or "explicit". -/
inductive Mode where
  | sendAll
  | explicit
  deriving DecidableEq

/-- One requested output of explicit mode. -/
structure OutReq where
  address : Str
  lovelace : Nat
  assets : List Amt
  deriving DecidableEq

/-- One entry of outSpecs: the JS-side accounting row for an output. -/
structure OutSpec where
  address : Str
  coin : Nat
  assetsMap : MultiAsset
  deriving DecidableEq

/-- The builder's inputs (bf.utxosByAddress result passed as data). -/
structure BuildArgs where
  utxos : List Utxo
  multisigAddress : Str
  mode : Mode
  destAddress : Option Str
  outputs : List OutReq
  requiredKeyHashes : List Str
  deriving DecidableEq

/-- One output of the built transaction body, exactly as handed to
    tb.add_output. -/
structure OutRow where
  address : Str
  value : ValueC
  deriving DecidableEq

/-- The build artifact: the body's outputs in order (specs, then change),
    the declared fee and the selected inputs.  The body hash and the CBOR
    serializations are external CSL computations carried over these data. -/
structure Artifact where
  outputs : List OutRow
  fee : Nat
  selectedInputs : List Utxo
  changeCoin : Nat
  deriving DecidableEq

/-- The value of one UTxO (inlined in the source's input loop):
    u.amount.find(a => a.unit === 'lovelace').quantity as the coin (a missing
    lovelace row is an uncaught TypeError), the other rows folded in as
    assets. -/
def utxoValue (u : Utxo) : Except BuildErr ValueC :=
  match u.amount.find? (fun a => a.unit == lovelaceStr) with
  | none => Except.error BuildErr.missingLovelace
  | some l =>
    Except.ok (addAssetsToValue { coin := l.quantity, ma := none }
      (u.amount.filter (fun a => a.unit != lovelaceStr)))

/-- The body of the outSpecs loop of the builder, step 4: build the CSL value
    for one spec (set the multiasset only when non-empty, then the
    redundant bump) and add the output row. -/
def mkOutputRow (spec : OutSpec) : OutRow :=
  let v : ValueC := { coin := spec.coin, ma := none }
  let v := if jsAssetsIsEmpty spec.assetsMap then v else jsAssetsToValue v spec.assetsMap
  let v := match v.ma with
    | some _ => bumpAdaIfTokens v
    | none => v
  { address := spec.address, value := v }

/-- The change-output construction of the builder, step 4. -/
def mkChangeRow (changeAddr : Str) (changeCoin : Nat) (changeAssets : MultiAsset) : OutRow :=
  let changeVal : ValueC := { coin := changeCoin, ma := none }
  let changeVal := if jsAssetsIsEmpty changeAssets then changeVal
    else jsAssetsToValue changeVal changeAssets
  let changeVal := match changeVal.ma with
    | some _ => bumpAdaIfTokens changeVal
    | none => changeVal
  { address := changeAddr, value := changeVal }

/-- Step 2 of the builder for explicit mode: the fold over the requested
    outputs building (outSpecs, outCoin, outAssets). -/
def explicitSpecs (outputs : List OutReq) : List OutSpec × Nat × MultiAsset :=
  outputs.foldl (fun st o =>
    let aMap := jsAssetsFromOutputSpec o.assets
    let effectiveCoin :=
      if jsAssetsIsEmpty aMap then o.lovelace
      else if MIN_ADA ≤ o.lovelace then o.lovelace else MIN_ADA
    (st.1 ++ [{ address := o.address, coin := effectiveCoin, assetsMap := aMap }],
     st.2.1 + effectiveCoin,
     jsAssetsAdd st.2.2 aMap)) ([], 0, [])

/-- Steps 3 and 4 of buildUnsignedTx (the tail of the source function,
    factored for proof modularity): the insufficient-ADA check, the change
    arithmetic with its token floor, and the assembled artifact with the
    fixed fee. -/
def buildFromSpecs (args : BuildArgs) (totalJS : ValueJs)
    (outSpecs : List OutSpec) (outCoin : Nat) (outAssets : MultiAsset) :
    Except BuildErr Artifact := do
  -- 3) change = TOTAL - OUTS - FIXED_FEE
  let fee := FIXED_FEE
  if ¬ (outCoin + fee ≤ totalJS.coin) then Except.error BuildErr.insufficientAda
  else do
    let changeAssets ← jsAssetsSub totalJS.assets outAssets
    let changeCoin := totalJS.coin - outCoin - fee
    if jsAssetsIsEmpty changeAssets = false ∧ changeCoin < MIN_ADA then
      Except.error BuildErr.changeBelowMinAda
    else do
      -- 4) outputs from specs, change if any, fixed fee
      let rows := outSpecs.map mkOutputRow
      let changeRows :=
        if 0 < changeCoin ∨ jsAssetsIsEmpty changeAssets = false then
          let changeAddr := match args.mode with
            | Mode.sendAll => args.destAddress.getD []
            | Mode.explicit => args.multisigAddress
          [mkChangeRow changeAddr changeCoin changeAssets]
        else []
      Except.ok
        { outputs := rows ++ changeRows
          fee := fee
          selectedInputs := args.utxos
          changeCoin := changeCoin }

/-- buildUnsignedTx of txStore.js. -/
def buildUnsignedTx (args : BuildArgs) : Except BuildErr Artifact := do
  -- 1) collect inputs and compute the total value (coins + tokens)
  let totalValue ← args.utxos.foldlM
    (fun tv u => do pure (mergeValue tv (← utxoValue u)))
    ({ coin := 0, ma := none } : ValueC)
  let totalJS := valueToJs totalValue
  -- 2) build the output list and the JS aggregates, then steps 3 and 4
  match args.mode with
  | Mode.sendAll =>
    match args.destAddress with
    | none => Except.error BuildErr.destMissing
    | some dest =>
      buildFromSpecs args totalJS
        [({ address := dest, coin := MIN_ADA, assetsMap := totalJS.assets } : OutSpec)]
        (0 + MIN_ADA) (jsAssetsAdd [] totalJS.assets)
  | Mode.explicit =>
    buildFromSpecs args totalJS (explicitSpecs args.outputs).1
      (explicitSpecs args.outputs).2.1 (explicitSpecs args.outputs).2.2

/-! Specification-side totals used to state conservation. -/

/-- The quantity of (policy, name) in a multi-asset map. -/
def maQty (m : MultiAsset) (p n : Str) : Nat :=
  (mapGet ((mapGet m p).getD []) n).getD 0

/-- The quantity of (policy, name) in one output row. -/
def rowQty (r : OutRow) (p n : Str) : Nat :=
  match r.value.ma with
  | none => 0
  | some m => maQty m p n

/-- The total quantity of (policy, name) over a list of output rows. -/
def outputsQty (rows : List OutRow) (p n : Str) : Nat :=
  (rows.map (fun r => rowQty r p n)).sum

/-- The total coin over a list of output rows. -/
def outputsCoinSum (rows : List OutRow) : Nat :=
  (rows.map (fun r => r.value.coin)).sum

/-- The total quantity of (policy, name) over the inputs: the sum of the
    non-lovelace amount rows whose lowercased unit is policy ++ name. -/
def inputQty (utxos : List Utxo) (p n : Str) : Nat :=
  (utxos.map (fun u =>
    ((u.amount.filter (fun a => a.unit != lovelaceStr)).map (fun a =>
      if lowerStr a.unit = p ++ n then a.quantity else 0)).sum)).sum

/-- The total coin over the inputs (each UTxO's lovelace row). -/
def inputCoin (utxos : List Utxo) : Nat :=
  (utxos.map (fun u =>
    match u.amount.find? (fun a => a.unit == lovelaceStr) with
    | some l => l.quantity
    | none => 0)).sum

/-! Concrete builder inputs used by the claim-level evaluations.  A policy id
    is 56 hex chars; token units are policy ++ name. -/

/-- A concrete policy id: 56 times the char 'a'. -/
def policyA : Str := List.replicate 56 97

/-- A concrete asset name: "b". -/
def nameB : Str := [98]

/-- Another concrete asset name: "c". -/
def nameC : Str := [99]

/-- Explicit-mode build whose requested output carries 6 units of an asset
    the inputs hold none of: the inputs are one pure-lovelace UTxO. -/
def c1args : BuildArgs :=
  { utxos := [{ txHash := [116]
                outputIndex := 0
                amount := [{ unit := lovelaceStr, quantity := 10000000 }] }]
    multisigAddress := [109]
    mode := Mode.explicit
    destAddress := none
    outputs := [{ address := [120]
                  lovelace := 1500000
                  assets := [{ unit := policyA ++ nameB, quantity := 6 }] }]
    requiredKeyHashes := [] }

/-- Explicit-mode build holding 5 units of (policyA, "b") but requesting 3
    units of the absent asset (policyA, "c"). -/
def c7args : BuildArgs :=
  { utxos := [{ txHash := [116]
                outputIndex := 0
                amount := [{ unit := lovelaceStr, quantity := 10000000 },
                           { unit := policyA ++ nameB, quantity := 5 }] }]
    multisigAddress := [109]
    mode := Mode.explicit
    destAddress := none
    outputs := [{ address := [120]
                  lovelace := 1500000
                  assets := [{ unit := policyA ++ nameC, quantity := 3 }] }]
    requiredKeyHashes := [] }

/-- Sweep-mode build of a UTxO carrying 5,000,000 lovelace and 7 units of
    (policyA, "b") (spec scenario 2). -/
def c8args : BuildArgs :=
  { utxos := [{ txHash := [116]
                outputIndex := 0
                amount := [{ unit := lovelaceStr, quantity := 5000000 },
                           { unit := policyA ++ nameB, quantity := 7 }] }]
    multisigAddress := [109]
    mode := Mode.sendAll
    destAddress := some [100]
    outputs := []
    requiredKeyHashes := [] }

/-! ## Session store (txStore.js) and the server endpoints (unnamed server)

    A vkey witness is attributed by hashing its public key; the hash is an
    external CSL computation, so a key witness carries the hex of that hash
    (as the endpoint reads it, before toLowerCase) together with its uninterpreted
    remainder.  A submitted or stored blob parses as a witness set, as a
    full transaction, or not at all; CSL deserialization is injective, so
    blobs are carried structurally. -/

/-- One vkey witness: the hex of hash(vkey) plus the uninterpreted signature. -/
structure Vkw where
  vkeyHashHex : Str
  sig : Str
  deriving DecidableEq

/-- A CBOR blob as the endpoints can parse it: a TransactionWitnessSet
    (whose vkeys() may be undefined), a full Transaction (whose
    witness_set().vkeys() may be undefined), or unparseable bytes. -/
inductive Cbor where
  | ws (vkeys : Option (List Vkw))
  | tx (vkeys : Option (List Vkw))
  | bad
  deriving DecidableEq

/-- A session record of txStore.js. -/
structure TxRecord where
  txHex : Str
  txBodyHex : Str
  scriptHex : Str
  m : Nat
  signersKeyHashes : List Str
  witnesses : List (Str × Cbor)
  deriving DecidableEq

/-- The in-memory store: txId to record, in JS Map order. -/
abbrev Store := List (Str × TxRecord)

/-- createTxRecord of txStore.js: fresh record with an empty witness map. -/
def createTxRecord (txs : Store) (txId : Str) (txHex txBodyHex scriptHex : Str)
    (m : Nat) (signersKeyHashes : List Str) : Store :=
  mapSet txs txId
    { txHex := txHex
      txBodyHex := txBodyHex
      scriptHex := scriptHex
      m := m
      signersKeyHashes := signersKeyHashes
      witnesses := [] }

/-- addWitness of txStore.js: on a found record, set the witness under the
    key hash and report (count, m); on a missing record report failure. -/
def addWitness (txs : Store) (txId keyHashHex : Str) (witnessHex : Cbor) :
    Store × Option (Nat × Nat) :=
  match mapGet txs txId with
  | none => (txs, none)
  | some rec =>
    let rec2 := { rec with witnesses := mapSet rec.witnesses keyHashHex witnessHex }
    (mapSet txs txId rec2, some (rec2.witnesses.length, rec2.m))

/-- clearTx of txStore.js. -/
def clearTx (txs : Store) (txId : Str) : Store := mapDelete txs txId

/-- The status() result of txStore.js. -/
structure StatusInfo where
  m : Nat
  required : List Str
  collected : List Str
  deriving DecidableEq

/-- status of txStore.js. -/
def statusOf (txs : Store) (txId : Str) : Option StatusInfo :=
  (mapGet txs txId).map (fun r =>
    { m := r.m
      required := r.signersKeyHashes
      collected := r.witnesses.map (fun q => q.1) })

/-- The try/catch parse of /api/witness: first as a TransactionWitnessSet,
    then as a full Transaction; outer none is the invalid_witness_cbor path,
    inner none the undefined vkeys. -/
def parseBlobVkeys : Cbor → Option (Option (List Vkw))
  | Cbor.ws vkeys => some vkeys
  | Cbor.tx vkeys => some vkeys
  | Cbor.bad => none

/-- The responses of POST /api/witness. -/
inductive WitnessResp where
  | notFound
  | invalidWitnessCbor
  | emptyVkeys
  | storeError
  | signerNotAllowed (foundKeyHashes required : List Str)
  | okAccepted (accepted ignored : List Str) (collected required : Nat)
  deriving DecidableEq

/-- The vkey-witness loop of /api/witness: attribute each witness by the
    lowercased hash of its vkey; a required one is stored via addWitness as
    a minimal witness set holding exactly that vkeywitness and recorded in
    accepted, any other is recorded in ignored.  The final Bool is the
    unreachable 500 branch taken when addWitness reports a missing record. -/
def witnessLoop (txId : Str) (requiredSet : List Str) :
    List Vkw → Store → List Str → List Str → Store × List Str × List Str × Bool
  | [], txs, accepted, ignored => (txs, accepted, ignored, false)
  | vw :: rest, txs, accepted, ignored =>
    let khHex := lowerStr vw.vkeyHashHex
    if khHex ∈ requiredSet then
      match addWitness txs txId khHex (Cbor.ws (some [vw])) with
      | (txs2, some _) => witnessLoop txId requiredSet rest txs2 (accepted ++ [khHex]) ignored
      | (txs2, none) => (txs2, accepted, ignored, true)
    else
      witnessLoop txId requiredSet rest txs accepted (ignored ++ [khHex])

/-- POST /api/witness of the server: look up the session, parse the blob,
    run the witness loop against the lowercased required set, and answer
    signer_not_allowed when nothing was accepted. -/
def apiWitness (txs : Store) (txId : Str) (witnessHex : Cbor) : Store × WitnessResp :=
  match mapGet txs txId with
  | none => (txs, WitnessResp.notFound)
  | some rec =>
    let requiredSet := jsSetOf (rec.signersKeyHashes.map lowerStr)
    match parseBlobVkeys witnessHex with
    | none => (txs, WitnessResp.invalidWitnessCbor)
    | some none => (txs, WitnessResp.emptyVkeys)
    | some (some vkws) =>
      if vkws.isEmpty then (txs, WitnessResp.emptyVkeys)
      else
        match witnessLoop txId requiredSet vkws txs [] [] with
        | (txs2, accepted, ignored, errored) =>
          if errored then (txs2, WitnessResp.storeError)
          else if accepted.isEmpty then
            (txs2, WitnessResp.signerNotAllowed ignored requiredSet)
          else
            match statusOf txs2 txId with
            | some st => (txs2, WitnessResp.okAccepted accepted ignored st.collected.length st.m)
            | none => (txs2, WitnessResp.storeError)

/-- The assembled signed transaction: body bytes, the native script, and the
    optional aggregated vkey witnesses, exactly the data serialized by
    Transaction.new(body, wsAll).to_bytes(); serialization is injective, so
    byte equality of the output is equality of this structure. -/
structure SignedTx where
  body : Str
  script : Str
  vkeys : Option (List Vkw)
  deriving DecidableEq

/-- The witness-aggregation loop of assembleAndSerializeTx: re-parse each
    stored witness as a TransactionWitnessSet (anything else throws out of
    the whole assembly), and append its vkey witnesses when present. -/
def aggVkeys : List Cbor → List Vkw → Except Unit (List Vkw)
  | [], agg => Except.ok agg
  | w :: rest, agg =>
    match w with
    | Cbor.ws (some vs) => aggVkeys rest (agg ++ vs)
    | Cbor.ws none => aggVkeys rest agg
    | _ => Except.error ()

/-- assembleAndSerializeTx of txStore.js / multisig.js: aggregate the vkey
    witnesses of the stored blobs in order (no sorting), and set them on the
    final witness set when non-empty. -/
def assembleAndSerializeTx (txBodyHex scriptHex : Str) (witnessHexes : List Cbor) :
    Except Unit SignedTx :=
  match aggVkeys witnessHexes [] with
  | Except.error e => Except.error e
  | Except.ok agg =>
    Except.ok
      { body := txBodyHex
        script := scriptHex
        vkeys := if agg.isEmpty then none else some agg }

/-- The responses of POST /api/submit. -/
inductive SubmitResp where
  | notFound
  | notEnoughWitnesses (collected required : Nat)
  | okSubmitted (txHash : Str)
  | submitFailed (detail : Option Str)
  deriving DecidableEq

/-- POST /api/submit of the server.  The Blockfrost verdict is external and
    passed as gw (ok = the submitted hash, error = the node's diagnostic);
    the returned Bool records whether bf.submitTx was reached.  Assembly
    failure is caught by the inner try and also answers submit_failed, with
    no network call and no clearTx. -/
def apiSubmit (txs : Store) (txId : Str) (gw : Except Str Str) :
    Store × SubmitResp × Bool :=
  match mapGet txs txId with
  | none => (txs, SubmitResp.notFound, false)
  | some rec =>
    let collected := rec.witnesses.length
    if collected < rec.m then (txs, SubmitResp.notEnoughWitnesses collected rec.m, false)
    else
      match assembleAndSerializeTx rec.txBodyHex rec.scriptHex
        (rec.witnesses.map (fun q => q.2)) with
      | Except.error _ => (txs, SubmitResp.submitFailed none, false)
      | Except.ok _ =>
        match gw with
        | Except.ok txHash => (clearTx txs txId, SubmitResp.okSubmitted txHash, true)
        | Except.error detail => (txs, SubmitResp.submitFailed (some detail), true)

/-- POST /api/reset of the server: clear the record when a txId is given. -/
def apiReset (txs : Store) (txId : Option Str) : Store :=
  match txId with
  | some t => clearTx txs t
  | none => txs

/-! The store-level operations a client can drive, for the store invariant.
    create models POST /api/create: the server hands createTxRecord the
    normalized (lowercased) required key hashes (REQUIRED_KEY_HASHES =
    summary.requiredKeyHashes.map toLowerCase). -/

/-- One client-visible store operation. -/
inductive SOp where
  | create (txId txHex txBodyHex scriptHex : Str) (rawRequired : List Str) (m : Nat)
  | witness (txId : Str) (blob : Cbor)
  | submit (txId : Str) (gw : Except Str Str)
  | reset (txId : Option Str)

/-- The store transition of one operation. -/
def applyOp (txs : Store) : SOp → Store
  | SOp.create txId txHex txBodyHex scriptHex rawRequired m =>
    createTxRecord txs txId txHex txBodyHex scriptHex m (rawRequired.map lowerStr)
  | SOp.witness txId blob => (apiWitness txs txId blob).1
  | SOp.submit txId gw => (apiSubmit txs txId gw).1
  | SOp.reset txId => apiReset txs txId

/-- The store reached by a sequence of operations from the empty start. -/
def runOps (ops : List SOp) : Store := ops.foldl applyOp []

/-- The claimed invariant: in every live session, every witness-map key is
    one of the session's required key hashes. -/
def StoreInv (txs : Store) : Prop :=
  ∀ p ∈ txs, ∀ q ∈ p.2.witnesses, q.1 ∈ p.2.signersKeyHashes

/-- Helper predicates used by spec-side statements: the lowercased hash of
    each vkey witness of a blob. -/
def vkwHashes (vkws : List Vkw) : List Str :=
  vkws.map (fun v => lowerStr v.vkeyHashHex)

/-- The last vkey witness of a blob attributed to a given (lowercased) key
    hash: the one whose stored singleton survives the loop's overwrites. -/
def lastWitnessFor : List Vkw → Str → Option Vkw
  | [], _ => none
  | vw :: rest, kh =>
    match lastWitnessFor rest kh with
    | some w => some w
    | none => if lowerStr vw.vkeyHashHex = kh then some vw else none

/-- The cbor blobs whose witness-set parse succeeds. -/
def isWsCbor : Cbor → Bool
  | Cbor.ws _ => true
  | _ => false

/-- The vkey witnesses a witness-set blob contributes to the aggregate. -/
def wsList : Cbor → List Vkw
  | Cbor.ws (some vs) => vs
  | _ => []

/-! ## Native script analyzer (collectScriptInfo / deriveSummary)

    The parsed native-script tree, with the child arrays of the CSL
    containers as an inline list type so that all recursions stay
    structural.  Unknown node kinds cannot arise from a parsed script (the
    CSL enum is total on these six), so they are not represented. -/

mutual
inductive NativeScript where
  | pubkey (keyHash : Str)
  | allOf (scripts : ScriptList)
  | anyOf (scripts : ScriptList)
  | atLeast (n : Nat) (scripts : ScriptList)
  | invalidBefore (slot : Nat)
  | invalidHereafter (slot : Nat)
inductive ScriptList where
  | nil
  | cons (s : NativeScript) (rest : ScriptList)
end

/-- scripts.len() of a CSL container. -/
def ScriptList.length : ScriptList → Nat
  | ScriptList.nil => 0
  | ScriptList.cons _ rest => 1 + rest.length

/-- One entry pushed onto acc.tree (the path strings are UI-only and
    dropped). -/
inductive NodeInfo where
  | pubkeyNode (keyHash : Str)
  | allNode
  | anyNode
  | atLeastNode (n k : Nat)
  | invalidBeforeNode (slot : Nat)
  | invalidHereafterNode (slot : Nat)
  deriving DecidableEq

/-- Number.MAX_SAFE_INTEGER. -/
def MAX_SAFE_INTEGER : Nat := 9007199254740991

/-- The accumulator threaded by collectScriptInfo. -/
structure ScriptAcc where
  keys : List Str
  thresholds : List Nat
  invalidBefore : Option Nat
  invalidHereafter : Option Nat
  tree : List NodeInfo
  deriving DecidableEq

/-! collectScriptInfo of the server: walk the tree, lowercasing and
    deduplicating pubkey hashes, recording every AtLeast n, folding the
    timelock bounds, and pushing one tree entry per node. -/
mutual
def collectScriptInfo : NativeScript → ScriptAcc → ScriptAcc
  | NativeScript.pubkey kh, acc =>
    { acc with
        keys := setAdd acc.keys (lowerStr kh)
        tree := acc.tree ++ [NodeInfo.pubkeyNode (lowerStr kh)] }
  | NativeScript.allOf scripts, acc =>
    collectList scripts { acc with tree := acc.tree ++ [NodeInfo.allNode] }
  | NativeScript.anyOf scripts, acc =>
    collectList scripts { acc with tree := acc.tree ++ [NodeInfo.anyNode] }
  | NativeScript.atLeast n scripts, acc =>
    collectList scripts
      { acc with
          thresholds := acc.thresholds ++ [n]
          tree := acc.tree ++ [NodeInfo.atLeastNode n scripts.length] }
  | NativeScript.invalidBefore slot, acc =>
    { acc with
        invalidBefore := some (max (acc.invalidBefore.getD 0) slot)
        tree := acc.tree ++ [NodeInfo.invalidBeforeNode slot] }
  | NativeScript.invalidHereafter slot, acc =>
    { acc with
        invalidHereafter := some (min (acc.invalidHereafter.getD MAX_SAFE_INTEGER) slot)
        tree := acc.tree ++ [NodeInfo.invalidHereafterNode slot] }
def collectList : ScriptList → ScriptAcc → ScriptAcc
  | ScriptList.nil, acc => acc
  | ScriptList.cons s rest, acc => collectList rest (collectScriptInfo s acc)
end

/-- Is a tree entry an 'any' node (the deriveSummary .some check). -/
def isAnyNode : NodeInfo → Bool
  | NodeInfo.anyNode => true
  | _ => false

/-- Math.max over a spread non-empty list. -/
def maxOfList (l : List Nat) : Nat := l.foldl Nat.max 0

/-- The script summary (scriptHash and the UI fields are external CSL
    computations and are dropped). -/
structure Summary where
  mRequired : Nat
  totalKeys : Nat
  requiredKeyHashes : List Str
  invalidBefore : Option Nat
  invalidHereafter : Option Nat
  deriving DecidableEq

/-- deriveSummary of the server: collect, then take the maximum explicit
    N-of-K threshold if any, else 1 when an Any node exists, else the
    number of collected key hashes. -/
def deriveSummary (ns : NativeScript) : Summary :=
  let info := collectScriptInfo ns
    { keys := []
      thresholds := []
      invalidBefore := none
      invalidHereafter := none
      tree := [] }
  let requiredKeyHashes := info.keys
  let mRequired :=
    if 0 < info.thresholds.length then maxOfList info.thresholds
    else if info.tree.any isAnyNode then 1
    else requiredKeyHashes.length
  { mRequired := mRequired
    totalKeys := requiredKeyHashes.length
    requiredKeyHashes := requiredKeyHashes
    invalidBefore := info.invalidBefore
    invalidHereafter :=
      if info.invalidHereafter = some MAX_SAFE_INTEGER then none
      else info.invalidHereafter }

/-! Specification-side structural readings of a script tree, used to state
    the claims about deriveSummary. -/

/-! The n of every AtLeast node, in preorder. -/
mutual
def atLeastNs : NativeScript → List Nat
  | NativeScript.pubkey _ => []
  | NativeScript.allOf scripts => atLeastNsL scripts
  | NativeScript.anyOf scripts => atLeastNsL scripts
  | NativeScript.atLeast n scripts => n :: atLeastNsL scripts
  | NativeScript.invalidBefore _ => []
  | NativeScript.invalidHereafter _ => []
def atLeastNsL : ScriptList → List Nat
  | ScriptList.nil => []
  | ScriptList.cons s rest => atLeastNs s ++ atLeastNsL rest
end

/-! Does the tree contain an Any node. -/
mutual
def containsAnyB : NativeScript → Bool
  | NativeScript.pubkey _ => false
  | NativeScript.allOf scripts => containsAnyL scripts
  | NativeScript.anyOf _ => true
  | NativeScript.atLeast _ scripts => containsAnyL scripts
  | NativeScript.invalidBefore _ => false
  | NativeScript.invalidHereafter _ => false
def containsAnyL : ScriptList → Bool
  | ScriptList.nil => false
  | ScriptList.cons s rest => containsAnyB s || containsAnyL rest
end

/-! The lowercased pubkey leaf hashes, in preorder, duplicates kept. -/
mutual
def leafKeys : NativeScript → List Str
  | NativeScript.pubkey kh => [lowerStr kh]
  | NativeScript.allOf scripts => leafKeysL scripts
  | NativeScript.anyOf scripts => leafKeysL scripts
  | NativeScript.atLeast _ scripts => leafKeysL scripts
  | NativeScript.invalidBefore _ => []
  | NativeScript.invalidHereafter _ => []
def leafKeysL : ScriptList → List Str
  | ScriptList.nil => []
  | ScriptList.cons s rest => leafKeys s ++ leafKeysL rest
end

/-- Build a child container from a list (construction helper for the
    concrete trees below). -/
def scriptListOf : List NativeScript → ScriptList
  | [] => ScriptList.nil
  | s :: rest => ScriptList.cons s (scriptListOf rest)

/-- Three concrete 56-hex-char key hashes. -/
def keyA : Str := List.replicate 56 97

/-- Second concrete key hash. -/
def keyB : Str := List.replicate 56 98

/-- Third concrete key hash. -/
def keyC : Str := List.replicate 56 99

/-- Spec scenario 6: AtLeast(2, [Pubkey(A), Pubkey(B), Pubkey(C)]). -/
def c6tree : NativeScript :=
  NativeScript.atLeast 2 (scriptListOf
    [NativeScript.pubkey keyA, NativeScript.pubkey keyB, NativeScript.pubkey keyC])

/-- A parseable tree whose threshold exceeds its distinct keys:
    AtLeast(3, [Pubkey(A), Pubkey(B)]). -/
def c9tree : NativeScript :=
  NativeScript.atLeast 3 (scriptListOf
    [NativeScript.pubkey keyA, NativeScript.pubkey keyB])

/-! Derived forms used in statements and proofs about the witness loop and
    the store invariant. -/

/-- The witness-map update performed by the witness loop of /api/witness,
    isolated from the store threading: insert a minimal witness set for
    every required vkey witness, left to right. -/
def wUpd (required : List Str) (vkws : List Vkw) (w : List (Str × Cbor)) :
    List (Str × Cbor) :=
  vkws.foldl (fun w vw =>
    let kh := lowerStr vw.vkeyHashHex
    if kh ∈ required then mapSet w kh (Cbor.ws (some [vw])) else w) w

/-- The session's required set as /api/witness computes it: the lowercased,
    deduplicated allow-list. -/
def requiredSetOf (rec : TxRecord) : List Str :=
  jsSetOf (rec.signersKeyHashes.map lowerStr)

/-- The hashes a blob's vkey witnesses contribute to accepted, in order. -/
def acceptedHashes (required : List Str) (vkws : List Vkw) : List Str :=
  (vkwHashes vkws).filter (fun k => decide (k ∈ required))

/-- The hashes a blob's vkey witnesses contribute to ignored, in order. -/
def ignoredHashes (required : List Str) (vkws : List Vkw) : List Str :=
  (vkwHashes vkws).filter (fun k => decide (k ∉ required))

/-- The strengthened store invariant carried through the operations: the
    witness keys are required hashes, and the required hashes are
    lowercase-normalized (as /api/create stores them). -/
def StoreInvL (txs : Store) : Prop :=
  ∀ p ∈ txs, (∀ q ∈ p.2.witnesses, q.1 ∈ p.2.signersKeyHashes) ∧
    p.2.signersKeyHashes.map lowerStr = p.2.signersKeyHashes

/-! Concrete sessions, blobs and operation sequences used by the
    claim-level evaluations. -/

/-- A 56-hex-char key hash outside every allow-list below: 'z' times 56. -/
def keyZ : Str := List.replicate 56 122

/-- A vkey witness attributed to keyA. -/
def vkwA : Vkw := { vkeyHashHex := keyA, sig := [1] }

/-- A vkey witness attributed to keyB. -/
def vkwB : Vkw := { vkeyHashHex := keyB, sig := [2] }

/-- A vkey witness attributed to the unknown keyZ. -/
def vkwZ : Vkw := { vkeyHashHex := keyZ, sig := [3] }

/-- Spec scenario 4: a session requiring {A, B, C} with threshold 3. -/
def c2rec : TxRecord :=
  { txHex := [7]
    txBodyHex := [1]
    scriptHex := [2]
    m := 3
    signersKeyHashes := [keyA, keyB, keyC]
    witnesses := [] }

/-- A store holding that session under id [10]. -/
def c2store : Store := [([10], c2rec)]

/-- A witness-set blob carrying key witnesses for {A, Z}. -/
def c2blob : Cbor := Cbor.ws (some [vkwA, vkwZ])

/-- Spec scenario 5: a 2-of-n session holding one collected witness. -/
def c4rec : TxRecord :=
  { txHex := [7]
    txBodyHex := [1]
    scriptHex := [2]
    m := 2
    signersKeyHashes := [keyA, keyB]
    witnesses := [(keyA, Cbor.ws (some [vkwA]))] }

/-- A store holding that session under id [11]. -/
def c4store : Store := [([11], c4rec)]

/-- A session meeting its threshold whose stored witness blob is a full
    transaction, which TransactionWitnessSet.from_bytes cannot parse. -/
def c5rec : TxRecord :=
  { txHex := [7]
    txBodyHex := [1]
    scriptHex := [2]
    m := 1
    signersKeyHashes := [keyA]
    witnesses := [(keyA, Cbor.tx (some [vkwA]))] }

/-- A store holding that session under id [12]. -/
def c5store : Store := [([12], c5rec)]

/-- A session meeting its threshold with a well-formed stored witness. -/
def c5okrec : TxRecord :=
  { txHex := [7]
    txBodyHex := [1]
    scriptHex := [2]
    m := 1
    signersKeyHashes := [keyA]
    witnesses := [(keyA, Cbor.ws (some [vkwA]))] }

/-- A store holding that session under id [13]. -/
def c5okstore : Store := [([13], c5okrec)]

/-- A concrete operation sequence: create a session, ingest a witness blob,
    attempt an early submit, reset another id. -/
def c3ops : List SOp :=
  [SOp.create [10] [7] [1] [2] [keyA, keyB, keyC] 3,
   SOp.witness [10] (Cbor.ws (some [vkwA, vkwZ])),
   SOp.submit [10] (Except.ok [9]),
   SOp.reset (some [99])]

/-- The artifact buildUnsignedTx returns on c8args (checked by evaluation in
    the witness below). -/
def c8art : Artifact :=
  { outputs :=
      [{ address := [100]
         value := { coin := 2000000, ma := some [(policyA, [(nameB, 7)])] } },
       { address := [100]
         value := { coin := 2000000, ma := none } }]
    fee := 1000000
    selectedInputs := c8args.utxos
    changeCoin := 2000000 }

/-! ## Lemmas on the JavaScript Map and Set models -/

theorem mapGet_mapSet_self {α : Type} (m : List (Str × α)) (k : Str) (v : α) :
    mapGet (mapSet m k v) k = some v := by
  induction m with
  | nil => simp [mapSet, mapGet]
  | cons p rest ih =>
    obtain ⟨k0, v0⟩ := p
    by_cases h : k0 = k
    · simp [mapSet, mapGet, h]
    · simp [mapSet, mapGet, h, ih]

theorem mapGet_mapSet_ne {α : Type} (m : List (Str × α)) (k k' : Str) (v : α)
    (h : k' ≠ k) : mapGet (mapSet m k v) k' = mapGet m k' := by
  induction m with
  | nil =>
    simp only [mapSet, mapGet]
    exact if_neg (fun hh => h hh.symm)
  | cons p rest ih =>
    obtain ⟨k0, v0⟩ := p
    by_cases h0 : k0 = k
    · subst h0
      have hk : ¬ k0 = k' := fun hh => h hh.symm
      simp [mapSet, mapGet, hk]
    · by_cases h1 : k0 = k'
      · subst h1
        simp [mapSet, mapGet, h0]
      · simp [mapSet, mapGet, h0, h1, ih]

theorem mapSet_mapSet {α : Type} (m : List (Str × α)) (k : Str) (v w : α) :
    mapSet (mapSet m k v) k w = mapSet m k w := by
  induction m with
  | nil => simp [mapSet]
  | cons p rest ih =>
    obtain ⟨k0, v0⟩ := p
    by_cases h : k0 = k
    · simp [mapSet, h]
    · simp [mapSet, h, ih]

theorem mapSet_eq_self {α : Type} (m : List (Str × α)) (k : Str) (v : α)
    (h : mapGet m k = some v) : mapSet m k v = m := by
  induction m with
  | nil => simp [mapGet] at h
  | cons p rest ih =>
    obtain ⟨k0, v0⟩ := p
    by_cases h0 : k0 = k
    · subst h0
      simp [mapGet] at h
      simp [mapSet, h]
    · simp [mapGet, h0] at h
      simp [mapSet, h0, ih h]

theorem mem_mapSet {α : Type} {p : Str × α} {m : List (Str × α)} {k : Str} {v : α}
    (h : p ∈ mapSet m k v) : p = (k, v) ∨ p ∈ m := by
  induction m with
  | nil => simpa [mapSet] using h
  | cons q rest ih =>
    obtain ⟨k0, v0⟩ := q
    by_cases h0 : k0 = k
    · subst h0
      simp [mapSet] at h
      rcases h with h | h
      · exact Or.inl (by simp [h])
      · exact Or.inr (by simp [h])
    · simp [mapSet, h0] at h
      rcases h with h | h
      · exact Or.inr (by simp [h])
      · rcases ih h with h1 | h1
        · exact Or.inl h1
        · exact Or.inr (by simp [h1])

theorem mem_mapDelete {α : Type} {p : Str × α} {m : List (Str × α)} {k : Str}
    (h : p ∈ mapDelete m k) : p ∈ m := by
  induction m with
  | nil => simp [mapDelete] at h
  | cons q rest ih =>
    obtain ⟨k0, v0⟩ := q
    by_cases h0 : k0 = k
    · simp [mapDelete, h0] at h
      exact by simp [h]
    · simp [mapDelete, h0] at h
      rcases h with h | h
      · simp [h]
      · simp [ih h]

theorem lowerByte_idem (b : Nat) : lowerByte (lowerByte b) = lowerByte b := by
  by_cases h : 65 ≤ b ∧ b ≤ 90
  · have h1 : lowerByte b = b + 32 := by
      unfold lowerByte
      exact if_pos h
    have h2 : lowerByte (b + 32) = b + 32 := by
      unfold lowerByte
      exact if_neg (by omega)
    rw [h1, h2]
  · have h1 : lowerByte b = b := by
      unfold lowerByte
      exact if_neg h
    rw [h1, h1]

theorem lowerStr_idem (s : Str) : lowerStr (lowerStr s) = lowerStr s := by
  induction s with
  | nil => rfl
  | cons b rest ih =>
    simp [lowerStr] at ih ⊢
    exact ⟨lowerByte_idem b, ih⟩

theorem mem_foldl_setAdd (l : List Str) (init : List Str) (x : Str) :
    x ∈ l.foldl setAdd init ↔ x ∈ init ∨ x ∈ l := by
  induction l generalizing init with
  | nil => simp
  | cons y rest ih =>
    rw [List.foldl_cons, ih]
    unfold setAdd
    by_cases h : y ∈ init
    · simp [h]
      constructor
      · rintro (h1 | h1)
        · exact Or.inl h1
        · exact Or.inr (Or.inr h1)
      · rintro (h1 | h1 | h1)
        · exact Or.inl h1
        · exact Or.inl (h1 ▸ h)
        · exact Or.inr h1
    · simp [h, List.mem_append]
      tauto

theorem mem_jsSetOf (l : List Str) (x : Str) : x ∈ jsSetOf l ↔ x ∈ l := by
  unfold jsSetOf
  rw [mem_foldl_setAdd]
  simp

theorem nodup_setAdd (s : List Str) (x : Str) (h : s.Nodup) : (setAdd s x).Nodup := by
  unfold setAdd
  by_cases hx : x ∈ s
  · simp [hx, h]
  · simp [hx, List.nodup_append, h]

theorem nodup_foldl_setAdd (l : List Str) (init : List Str) (h : init.Nodup) :
    (l.foldl setAdd init).Nodup := by
  induction l generalizing init with
  | nil => simpa
  | cons y rest ih => exact ih _ (nodup_setAdd _ _ h)

/-! ## Lemmas on the witness loop of /api/witness -/

theorem wUpd_cons (required : List Str) (vw : Vkw) (rest : List Vkw)
    (w : List (Str × Cbor)) :
    wUpd required (vw :: rest) w =
      wUpd required rest
        (if lowerStr vw.vkeyHashHex ∈ required then
          mapSet w (lowerStr vw.vkeyHashHex) (Cbor.ws (some [vw]))
        else w) := rfl

theorem mapGet_wUpd_notRequired (required : List Str) (vkws : List Vkw)
    (w : List (Str × Cbor)) (kh : Str) (h : kh ∉ required) :
    mapGet (wUpd required vkws w) kh = mapGet w kh := by
  induction vkws generalizing w with
  | nil => rfl
  | cons vw rest ih =>
    rw [wUpd_cons]
    by_cases hm : lowerStr vw.vkeyHashHex ∈ required
    · rw [if_pos hm, ih, mapGet_mapSet_ne _ _ _ _ (fun hh => h (by rw [hh]; exact hm))]
    · rw [if_neg hm, ih]

theorem mapGet_wUpd_required (required : List Str) (vkws : List Vkw)
    (w : List (Str × Cbor)) (kh : Str) (h : kh ∈ required) :
    mapGet (wUpd required vkws w) kh =
      (match lastWitnessFor vkws kh with
       | some vw => some (Cbor.ws (some [vw]))
       | none => mapGet w kh) := by
  induction vkws generalizing w with
  | nil => rfl
  | cons vw rest ih =>
    rw [wUpd_cons]
    cases hrest : lastWitnessFor rest kh with
    | some w2 =>
      have hcons : lastWitnessFor (vw :: rest) kh = some w2 := by
        simp [lastWitnessFor, hrest]
      rw [hcons]
      by_cases hm : lowerStr vw.vkeyHashHex ∈ required
      · rw [if_pos hm, ih, hrest]
      · rw [if_neg hm, ih, hrest]
    | none =>
      by_cases hmatch : lowerStr vw.vkeyHashHex = kh
      · have hcons : lastWitnessFor (vw :: rest) kh = some vw := by
          simp [lastWitnessFor, hrest, hmatch]
        rw [hcons, if_pos (hmatch ▸ h), ih, hrest, hmatch, mapGet_mapSet_self]
      · have hcons : lastWitnessFor (vw :: rest) kh = none := by
          simp [lastWitnessFor, hrest, hmatch]
        rw [hcons]
        by_cases hm : lowerStr vw.vkeyHashHex ∈ required
        · rw [if_pos hm, ih, hrest,
            mapGet_mapSet_ne _ _ _ _ (fun hh => hmatch hh.symm)]
        · rw [if_neg hm, ih, hrest]

theorem wUpd_id_of_none_required (required : List Str) (vkws : List Vkw)
    (w : List (Str × Cbor))
    (h : ∀ vw ∈ vkws, lowerStr vw.vkeyHashHex ∉ required) :
    wUpd required vkws w = w := by
  induction vkws generalizing w with
  | nil => rfl
  | cons vw rest ih =>
    rw [wUpd_cons, if_neg (h vw (by simp))]
    exact ih _ (fun x hx => h x (by simp [hx]))

theorem mem_wUpd (required : List Str) (vkws : List Vkw)
    (w : List (Str × Cbor)) (q : Str × Cbor) (h : q ∈ wUpd required vkws w) :
    q.1 ∈ required ∨ q ∈ w := by
  induction vkws generalizing w with
  | nil => exact Or.inr h
  | cons vw rest ih =>
    rw [wUpd_cons] at h
    by_cases hm : lowerStr vw.vkeyHashHex ∈ required
    · rw [if_pos hm] at h
      rcases ih _ h with h1 | h1
      · exact Or.inl h1
      · rcases mem_mapSet h1 with h2 | h2
        · exact Or.inl (by rw [h2]; exact hm)
        · exact Or.inr h2
    · rw [if_neg hm] at h
      exact ih _ h

theorem witnessLoop_eq (txId : Str) (required : List Str) (vkws : List Vkw) :
    ∀ (txs : Store) (r : TxRecord) (acc ign : List Str), mapGet txs txId = some r →
    witnessLoop txId required vkws txs acc ign =
      (mapSet txs txId { r with witnesses := wUpd required vkws r.witnesses },
       acc ++ (vkwHashes vkws).filter (fun k => decide (k ∈ required)),
       ign ++ (vkwHashes vkws).filter (fun k => decide (k ∉ required)),
       false) := by
  induction vkws with
  | nil =>
    intro txs r acc ign h
    have : ({ r with witnesses := wUpd required [] r.witnesses } : TxRecord) = r := rfl
    rw [this, mapSet_eq_self txs txId r h]
    simp [witnessLoop, vkwHashes]
  | cons vw rest ih =>
    intro txs r acc ign h
    by_cases hm : lowerStr vw.vkeyHashHex ∈ required
    · generalize hw2 : mapSet r.witnesses (lowerStr vw.vkeyHashHex) (Cbor.ws (some [vw])) = w2
      have haw : addWitness txs txId (lowerStr vw.vkeyHashHex) (Cbor.ws (some [vw])) =
          (mapSet txs txId { r with witnesses := w2 }, some (w2.length, r.m)) := by
        rw [← hw2]
        simp [addWitness, h]
      have h2 : mapGet (mapSet txs txId { r with witnesses := w2 }) txId =
          some { r with witnesses := w2 } := mapGet_mapSet_self _ _ _
      simp only [witnessLoop, if_pos hm, haw]
      rw [ih _ _ _ _ h2, mapSet_mapSet]
      simp [vkwHashes, List.filter_cons, hm, wUpd_cons, ← hw2]
    · simp only [witnessLoop, if_neg hm]
      rw [ih _ _ _ _ h]
      simp [vkwHashes, List.filter_cons, hm, wUpd_cons]

theorem apiWitness_eq (txs : Store) (txId : Str) (rec : TxRecord) (blob : Cbor)
    (vkws : List Vkw)
    (h1 : mapGet txs txId = some rec)
    (h2 : parseBlobVkeys blob = some (some vkws))
    (h3 : vkws ≠ []) :
    apiWitness txs txId blob =
      (mapSet txs txId
        { rec with witnesses := wUpd (requiredSetOf rec) vkws rec.witnesses },
       if (acceptedHashes (requiredSetOf rec) vkws).isEmpty then
         WitnessResp.signerNotAllowed (ignoredHashes (requiredSetOf rec) vkws)
           (requiredSetOf rec)
       else
         WitnessResp.okAccepted (acceptedHashes (requiredSetOf rec) vkws)
           (ignoredHashes (requiredSetOf rec) vkws)
           (wUpd (requiredSetOf rec) vkws rec.witnesses).length rec.m) := by
  have hloop := witnessLoop_eq txId (jsSetOf (rec.signersKeyHashes.map lowerStr))
    vkws txs rec [] [] h1
  have hempty : vkws.isEmpty = false := by
    cases vkws with
    | nil => exact absurd rfl h3
    | cons a as => rfl
  simp only [apiWitness, h1, h2, hempty]
  rw [hloop]
  simp only [List.nil_append, Bool.false_eq_true, if_false,
    statusOf, mapGet_mapSet_self, Option.map_some, List.length_map,
    acceptedHashes, ignoredHashes, requiredSetOf]
  by_cases hacc : ((vkwHashes vkws).filter
      (fun k => decide (k ∈ jsSetOf (rec.signersKeyHashes.map lowerStr)))).isEmpty
  · simp [hacc]
  · simp only [Bool.not_eq_true] at hacc
    simp [hacc]

/-- C2: for a parseable witness blob against an existing session, each
    contained key witness is attributed by the lowercased hash of its vkey;
    the required ones are stored as minimal singleton witness sets (the last
    one per hash surviving) and reported in accepted, the others are not
    stored and reported in ignored; and when nothing is accepted the
    endpoint answers signer_not_allowed carrying the ignored list and the
    store is unchanged. -/
theorem c2_witness_intake (txs : Store) (txId : Str) (rec : TxRecord) (blob : Cbor)
    (vkws : List Vkw)
    (h1 : mapGet txs txId = some rec)
    (h2 : parseBlobVkeys blob = some (some vkws))
    (h3 : vkws ≠ []) :
    (acceptedHashes (requiredSetOf rec) vkws ≠ [] →
      ((apiWitness txs txId blob).2 =
        WitnessResp.okAccepted (acceptedHashes (requiredSetOf rec) vkws)
          (ignoredHashes (requiredSetOf rec) vkws)
          (wUpd (requiredSetOf rec) vkws rec.witnesses).length rec.m) ∧
      (∀ kh ∈ requiredSetOf rec,
        (mapGet (apiWitness txs txId blob).1 txId).map (fun r => mapGet r.witnesses kh) =
          some (match lastWitnessFor vkws kh with
            | some vw => some (Cbor.ws (some [vw]))
            | none => mapGet rec.witnesses kh)) ∧
      (∀ kh, kh ∉ requiredSetOf rec →
        (mapGet (apiWitness txs txId blob).1 txId).map (fun r => mapGet r.witnesses kh) =
          some (mapGet rec.witnesses kh))) ∧
    (acceptedHashes (requiredSetOf rec) vkws = [] →
      apiWitness txs txId blob =
        (txs, WitnessResp.signerNotAllowed (ignoredHashes (requiredSetOf rec) vkws)
          (requiredSetOf rec))) := by
  have happ := apiWitness_eq txs txId rec blob vkws h1 h2 h3
  constructor
  · intro hacc
    have haccB : (acceptedHashes (requiredSetOf rec) vkws).isEmpty = false := by
      cases hl : acceptedHashes (requiredSetOf rec) vkws with
      | nil => exact absurd hl hacc
      | cons a as => rfl
    rw [happ]
    refine ⟨by simp [haccB], ?_, ?_⟩
    · intro kh hkh
      simp [mapGet_mapSet_self, mapGet_wUpd_required _ _ _ _ hkh]
    · intro kh hkh
      simp [mapGet_mapSet_self, mapGet_wUpd_notRequired _ _ _ _ hkh]
  · intro hacc
    have hnone : ∀ vw ∈ vkws, lowerStr vw.vkeyHashHex ∉ requiredSetOf rec := by
      intro vw hvw hmem
      have : lowerStr vw.vkeyHashHex ∈ vkwHashes vkws := by
        simp [vkwHashes]
        exact ⟨vw, hvw, rfl⟩
      have : lowerStr vw.vkeyHashHex ∈ acceptedHashes (requiredSetOf rec) vkws := by
        simp [acceptedHashes, List.mem_filter, this, hmem]
      rw [hacc] at this
      simp at this
    have hupd : wUpd (requiredSetOf rec) vkws rec.witnesses = rec.witnesses :=
      wUpd_id_of_none_required _ _ _ hnone
    rw [happ, hupd]
    have hrec : ({ rec with witnesses := rec.witnesses } : TxRecord) = rec := rfl
    rw [hrec, mapSet_eq_self txs txId rec h1]
    have haccB : (acceptedHashes (requiredSetOf rec) vkws).isEmpty = true := by
      rw [hacc]
      rfl
    simp [haccB]

/-- C2 witness: spec scenario 4 — required {A, B, C}, a blob carrying key
    witnesses for {A, Z} is accepted for A, ignored for Z. -/
theorem c2_intake_witness :
    (apiWitness c2store [10] c2blob).2 =
      WitnessResp.okAccepted (acceptedHashes (requiredSetOf c2rec) [vkwA, vkwZ])
        (ignoredHashes (requiredSetOf c2rec) [vkwA, vkwZ])
        (wUpd (requiredSetOf c2rec) [vkwA, vkwZ] c2rec.witnesses).length c2rec.m :=
  ((c2_witness_intake c2store [10] c2rec c2blob [vkwA, vkwZ]
    (by decide) (by decide) (by decide)).1 (by decide)).1

/-! ## The store invariant (C3) -/

theorem mapGet_mem {α : Type} {m : List (Str × α)} {k : Str} {v : α}
    (h : mapGet m k = some v) : (k, v) ∈ m := by
  induction m with
  | nil => simp [mapGet] at h
  | cons p rest ih =>
    obtain ⟨k0, v0⟩ := p
    by_cases h0 : k0 = k
    · subst h0
      simp [mapGet] at h
      simp [h]
    · simp [mapGet, h0] at h
      simp [ih h]

theorem map_lowerStr_idem (l : List Str) :
    (l.map lowerStr).map lowerStr = l.map lowerStr := by
  induction l with
  | nil => rfl
  | cons x rest ih => simp [lowerStr_idem, ih]

theorem applyOp_invL (txs : Store) (op : SOp) (h : StoreInvL txs) :
    StoreInvL (applyOp txs op) := by
  cases op with
  | create txId txHex txBodyHex scriptHex rawRequired m =>
    intro p hp
    rcases mem_mapSet hp with h1 | h1
    · subst h1
      exact ⟨by simp, map_lowerStr_idem rawRequired⟩
    · exact h p h1
  | witness txId blob =>
    show StoreInvL (apiWitness txs txId blob).1
    cases hg : mapGet txs txId with
    | none => simpa [apiWitness, hg] using h
    | some rec =>
      cases hp : parseBlobVkeys blob with
      | none => simpa [apiWitness, hg, hp] using h
      | some vkeysOpt =>
        cases vkeysOpt with
        | none => simpa [apiWitness, hg, hp] using h
        | some vkws =>
          cases vkws with
          | nil => simpa [apiWitness, hg, hp] using h
          | cons vw rest =>
            rw [apiWitness_eq txs txId rec blob (vw :: rest) hg hp (by simp)]
            intro p hp2
            rcases mem_mapSet hp2 with h1 | h1
            · subst h1
              have hrec := h (txId, rec) (mapGet_mem hg)
              refine ⟨?_, hrec.2⟩
              intro q hq
              rcases mem_wUpd _ _ _ _ hq with h2 | h2
              · have h3 : q.1 ∈ rec.signersKeyHashes.map lowerStr := by
                  have := (mem_jsSetOf _ _).mp h2
                  simpa [requiredSetOf] using this
                rw [hrec.2] at h3
                exact h3
              · exact hrec.1 q h2
            · exact h p h1
  | submit txId gw =>
    show StoreInvL (apiSubmit txs txId gw).1
    cases hg : mapGet txs txId with
    | none => simpa [apiSubmit, hg] using h
    | some rec =>
      by_cases hc : rec.witnesses.length < rec.m
      · simpa [apiSubmit, hg, hc] using h
      · cases ha : assembleAndSerializeTx rec.txBodyHex rec.scriptHex
          (rec.witnesses.map (fun q => q.2)) with
        | error e => simpa [apiSubmit, hg, hc, ha] using h
        | ok st =>
          cases gw with
          | ok txHash =>
            intro p hp
            have hred : (apiSubmit txs txId (Except.ok txHash)).1 = clearTx txs txId := by
              simp [apiSubmit, hg, hc, ha]
            rw [hred] at hp
            exact h p (mem_mapDelete (by simpa [clearTx] using hp))
          | error d => simpa [apiSubmit, hg, hc, ha] using h
  | reset txId =>
    cases txId with
    | none => simpa [applyOp, apiReset] using h
    | some t =>
      intro p hp
      simp only [applyOp, apiReset, clearTx] at hp
      exact h p (mem_mapDelete hp)

/-- C3: for every sequence of session-store operations (create, witness
    insertion, submit, reset) from the empty store, every live session's
    witness-map keys form a subset of that session's required key hashes. -/
theorem c3_store_invariant (ops : List SOp) : StoreInv (runOps ops) := by
  have main : ∀ init, StoreInvL init → StoreInvL (ops.foldl applyOp init) := by
    induction ops with
    | nil => exact fun init hi => hi
    | cons op rest ih =>
      intro init hi
      exact ih _ (applyOp_invL init op hi)
  have hempty : StoreInvL [] := by
    intro p hp
    simp at hp
  intro p hp
  exact (main [] hempty p hp).1

/-- C3 witness: the invariant evaluated on a concrete operation sequence. -/
theorem c3_invariant_witness : StoreInv (runOps c3ops) := c3_store_invariant c3ops

/-! ## Submit gating and submit outcomes (C4, C5) -/

/-- C4: a submit on an existing session with fewer collected witnesses than
    the threshold answers not_enough_witnesses carrying (collected,
    required), makes no gateway call, and leaves the store unchanged. -/
theorem c4_submit_gating (txs : Store) (txId : Str) (rec : TxRecord)
    (gw : Except Str Str)
    (h1 : mapGet txs txId = some rec)
    (h2 : rec.witnesses.length < rec.m) :
    apiSubmit txs txId gw =
      (txs, SubmitResp.notEnoughWitnesses rec.witnesses.length rec.m, false) := by
  simp [apiSubmit, h1, h2]

/-- C4 witness: spec scenario 5 — one collected witness against m = 2. -/
theorem c4_gating_witness :
    apiSubmit c4store [11] (Except.ok [9]) =
      (c4store, SubmitResp.notEnoughWitnesses 1 2, false) :=
  c4_submit_gating c4store [11] c4rec (Except.ok [9]) (by decide) (by decide)

/-- C5 (amended): on a session meeting the threshold, a gateway acceptance
    clears the session and returns the hash, a gateway rejection leaves the
    session intact and surfaces the diagnostic as submit_failed, and a
    stored witness that fails to re-parse during assembly also yields
    submit_failed with no gateway call — but the session is left intact,
    not cleared. -/
theorem c5_submit_outcomes (txs : Store) (txId : Str) (rec : TxRecord)
    (gw : Except Str Str)
    (h1 : mapGet txs txId = some rec)
    (h2 : ¬ rec.witnesses.length < rec.m) :
    ((assembleAndSerializeTx rec.txBodyHex rec.scriptHex
        (rec.witnesses.map (fun q => q.2))).isOk = true →
      (∀ txHash, gw = Except.ok txHash →
        apiSubmit txs txId gw = (clearTx txs txId, SubmitResp.okSubmitted txHash, true)) ∧
      (∀ d, gw = Except.error d →
        apiSubmit txs txId gw = (txs, SubmitResp.submitFailed (some d), true))) ∧
    ((assembleAndSerializeTx rec.txBodyHex rec.scriptHex
        (rec.witnesses.map (fun q => q.2))).isOk = false →
      apiSubmit txs txId gw = (txs, SubmitResp.submitFailed none, false)) := by
  cases ha : assembleAndSerializeTx rec.txBodyHex rec.scriptHex
      (rec.witnesses.map (fun q => q.2)) with
  | error e =>
    refine ⟨fun hok => ?_, fun _ => ?_⟩
    · simp [Except.isOk, Except.toBool] at hok
    · simp [apiSubmit, h1, h2, ha]
  | ok st =>
    refine ⟨fun _ => ⟨fun txHash hgw => ?_, fun d hgw => ?_⟩, fun hbad => ?_⟩
    · subst hgw
      simp [apiSubmit, h1, h2, ha]
    · subst hgw
      simp [apiSubmit, h1, h2, ha]
    · simp [Except.isOk, Except.toBool] at hbad

/-- C5 witness: a stored full-transaction blob fails the witness-set parse
    at assembly; the endpoint answers submit_failed, calls no gateway, and
    keeps the session. -/
theorem c5_submit_witness :
    apiSubmit c5store [12] (Except.ok [9]) =
      (c5store, SubmitResp.submitFailed none, false) :=
  (c5_submit_outcomes c5store [12] c5rec (Except.ok [9]) (by decide) (by decide)).2
    (by decide)

/-- C5 counterexample: on that same session the claim says the session is
    cleared, but the store is unchanged and the session still present. -/
theorem c5_cleared_counterexample :
    (apiSubmit c5store [12] (Except.ok [9])).2.1 = SubmitResp.submitFailed none ∧
    (apiSubmit c5store [12] (Except.ok [9])).1 = c5store ∧
    mapGet (apiSubmit c5store [12] (Except.ok [9])).1 [12] = some c5rec ∧
    (apiSubmit c5store [12] (Except.ok [9])).2.2 = false := by decide

/-! ## Assembly and witness order (C10) -/

theorem aggVkeys_ok (l : List Cbor) (init : List Vkw)
    (h : ∀ w ∈ l, isWsCbor w = true) :
    aggVkeys l init = Except.ok (init ++ (l.map wsList).flatten) := by
  induction l generalizing init with
  | nil => simp [aggVkeys]
  | cons w rest ih =>
    cases w with
    | ws vkeys =>
      cases vkeys with
      | some vs =>
        simp only [aggVkeys]
        rw [ih _ (fun x hx => h x (by simp [hx]))]
        simp [wsList, List.append_assoc]
      | none =>
        simp only [aggVkeys]
        rw [ih _ (fun x hx => h x (by simp [hx]))]
        simp [wsList]
    | tx vkeys => exact absurd (h (Cbor.tx vkeys) (by simp)) (by simp [isWsCbor])
    | bad => exact absurd (h Cbor.bad (by simp)) (by simp [isWsCbor])

theorem aggVkeys_allWs (l : List Cbor) (init res : List Vkw)
    (h : aggVkeys l init = Except.ok res) : ∀ w ∈ l, isWsCbor w = true := by
  induction l generalizing init with
  | nil => simp
  | cons w rest ih =>
    cases w with
    | ws vkeys =>
      cases vkeys with
      | some vs =>
        simp only [aggVkeys] at h
        intro x hx
        rcases List.mem_cons.mp hx with h1 | h1
        · subst h1
          rfl
        · exact ih _ h x h1
      | none =>
        simp only [aggVkeys] at h
        intro x hx
        rcases List.mem_cons.mp hx with h1 | h1
        · subst h1
          rfl
        · exact ih _ h x h1
    | tx vkeys => simp [aggVkeys] at h
    | bad => simp [aggVkeys] at h

theorem assembleAndSerializeTx_ok (body script : Str) (l : List Cbor)
    (h : ∀ w ∈ l, isWsCbor w = true) :
    assembleAndSerializeTx body script l =
      Except.ok
        { body := body
          script := script
          vkeys := if ((l.map wsList).flatten).isEmpty then none
            else some ((l.map wsList).flatten) } := by
  unfold assembleAndSerializeTx
  rw [aggVkeys_ok l [] h]
  simp

theorem assemble_ok_allWs (body script : Str) (l : List Cbor) (st : SignedTx)
    (h : assembleAndSerializeTx body script l = Except.ok st) :
    ∀ w ∈ l, isWsCbor w = true := by
  unfold assembleAndSerializeTx at h
  cases ha : aggVkeys l [] with
  | error e =>
    rw [ha] at h
    simp at h
  | ok agg => exact aggVkeys_allWs l [] agg ha

/-- C10 (amended): the assembler concatenates the stored witnesses in the
    stored order without sorting; two insertion orders of the same witnesses
    give transactions with the same body, the same script, and the same
    vkey witnesses up to permutation. -/
theorem c10_assemble_perm (body script : Str) (w1 w2 : List Cbor) (s1 s2 : SignedTx)
    (hp : w1.Perm w2)
    (h1 : assembleAndSerializeTx body script w1 = Except.ok s1)
    (h2 : assembleAndSerializeTx body script w2 = Except.ok s2) :
    s1.body = s2.body ∧ s1.script = s2.script ∧
      (s1.vkeys.getD []).Perm (s2.vkeys.getD []) := by
  have hall1 := assemble_ok_allWs body script w1 s1 h1
  have hall2 := assemble_ok_allWs body script w2 s2 h2
  rw [assembleAndSerializeTx_ok body script w1 hall1] at h1
  rw [assembleAndSerializeTx_ok body script w2 hall2] at h2
  have hs1 := (Except.ok.injEq _ _).mp h1.symm
  have hs2 := (Except.ok.injEq _ _).mp h2.symm
  subst hs1
  subst hs2
  have hflat : ((w1.map wsList).flatten).Perm ((w2.map wsList).flatten) :=
    (hp.map wsList).flatten
  refine ⟨rfl, rfl, ?_⟩
  cases hj1 : ((w1.map wsList).flatten).isEmpty with
  | true =>
    have e1 : (w1.map wsList).flatten = [] := by
      cases hl : (w1.map wsList).flatten with
      | nil => rfl
      | cons a as => rw [hl] at hj1; simp at hj1
    have e2 : (w2.map wsList).flatten = [] := by
      rw [e1] at hflat
      exact hflat.symm.eq_nil
    simp [hj1, e1, e2]
  | false =>
    have hj2 : ((w2.map wsList).flatten).isEmpty = false := by
      cases hl : (w2.map wsList).flatten with
      | nil =>
        rw [hl] at hflat
        have := hflat.eq_nil
        rw [this] at hj1
        simp at hj1
      | cons a as => rfl
    simp [hj1, hj2]
    exact hflat

/-- C10 counterexample: the two insertion orders of the witnesses of A and
    B assemble to different serialized transactions (the vkey lists differ),
    so the claimed byte-identity under reordering is false. -/
theorem c10_order_counterexample :
    assembleAndSerializeTx [0] [1] [Cbor.ws (some [vkwA]), Cbor.ws (some [vkwB])] ≠
      assembleAndSerializeTx [0] [1] [Cbor.ws (some [vkwB]), Cbor.ws (some [vkwA])] := by
  decide

/-- C10 witness: the permutation statement evaluated on those two orders. -/
theorem c10_perm_witness :
    ({ body := [0], script := [1], vkeys := some [vkwA, vkwB] } : SignedTx).body =
      ({ body := [0], script := [1], vkeys := some [vkwB, vkwA] } : SignedTx).body ∧
    ({ body := [0], script := [1], vkeys := some [vkwA, vkwB] } : SignedTx).script =
      ({ body := [0], script := [1], vkeys := some [vkwB, vkwA] } : SignedTx).script ∧
    ((({ body := [0], script := [1], vkeys := some [vkwA, vkwB] } : SignedTx).vkeys.getD
        []).Perm
      (({ body := [0], script := [1], vkeys := some [vkwB, vkwA] } : SignedTx).vkeys.getD
        [])) :=
  c10_assemble_perm [0] [1]
    [Cbor.ws (some [vkwA]), Cbor.ws (some [vkwB])]
    [Cbor.ws (some [vkwB]), Cbor.ws (some [vkwA])]
    { body := [0], script := [1], vkeys := some [vkwA, vkwB] }
    { body := [0], script := [1], vkeys := some [vkwB, vkwA] }
    (List.Perm.swap (Cbor.ws (some [vkwB])) (Cbor.ws (some [vkwA])) [])
    (by decide) (by decide)

/-! ## Script analysis (C6, C9) -/

mutual
theorem collect_thresholds : ∀ (s : NativeScript) (acc : ScriptAcc),
    (collectScriptInfo s acc).thresholds = acc.thresholds ++ atLeastNs s
  | NativeScript.pubkey kh, acc => by
    simp [collectScriptInfo, atLeastNs]
  | NativeScript.allOf scripts, acc => by
    simp only [collectScriptInfo]
    rw [collectList_thresholds scripts _]
    simp [atLeastNs]
  | NativeScript.anyOf scripts, acc => by
    simp only [collectScriptInfo]
    rw [collectList_thresholds scripts _]
    simp [atLeastNs]
  | NativeScript.atLeast n scripts, acc => by
    simp only [collectScriptInfo]
    rw [collectList_thresholds scripts _]
    simp [atLeastNs, List.append_assoc]
  | NativeScript.invalidBefore slot, acc => by
    simp [collectScriptInfo, atLeastNs]
  | NativeScript.invalidHereafter slot, acc => by
    simp [collectScriptInfo, atLeastNs]
theorem collectList_thresholds : ∀ (l : ScriptList) (acc : ScriptAcc),
    (collectList l acc).thresholds = acc.thresholds ++ atLeastNsL l
  | ScriptList.nil, acc => by
    simp [collectList, atLeastNsL]
  | ScriptList.cons s rest, acc => by
    simp only [collectList]
    rw [collectList_thresholds rest _, collect_thresholds s acc]
    simp [atLeastNsL, List.append_assoc]
end

mutual
theorem collect_anyNode : ∀ (s : NativeScript) (acc : ScriptAcc),
    (collectScriptInfo s acc).tree.any isAnyNode =
      (acc.tree.any isAnyNode || containsAnyB s)
  | NativeScript.pubkey kh, acc => by
    simp [collectScriptInfo, containsAnyB, isAnyNode]
  | NativeScript.allOf scripts, acc => by
    simp only [collectScriptInfo]
    rw [collectList_anyNode scripts _]
    simp [containsAnyB, isAnyNode, Bool.or_assoc]
  | NativeScript.anyOf scripts, acc => by
    simp only [collectScriptInfo]
    rw [collectList_anyNode scripts _]
    simp [containsAnyB, isAnyNode]
  | NativeScript.atLeast n scripts, acc => by
    simp only [collectScriptInfo]
    rw [collectList_anyNode scripts _]
    simp [containsAnyB, isAnyNode, Bool.or_assoc]
  | NativeScript.invalidBefore slot, acc => by
    simp [collectScriptInfo, containsAnyB, isAnyNode]
  | NativeScript.invalidHereafter slot, acc => by
    simp [collectScriptInfo, containsAnyB, isAnyNode]
theorem collectList_anyNode : ∀ (l : ScriptList) (acc : ScriptAcc),
    (collectList l acc).tree.any isAnyNode =
      (acc.tree.any isAnyNode || containsAnyL l)
  | ScriptList.nil, acc => by
    simp [collectList, containsAnyL]
  | ScriptList.cons s rest, acc => by
    simp only [collectList]
    rw [collectList_anyNode rest _, collect_anyNode s acc]
    simp [containsAnyL, Bool.or_assoc]
end

mutual
theorem collect_keys : ∀ (s : NativeScript) (acc : ScriptAcc),
    (collectScriptInfo s acc).keys = (leafKeys s).foldl setAdd acc.keys
  | NativeScript.pubkey kh, acc => by
    simp [collectScriptInfo, leafKeys]
  | NativeScript.allOf scripts, acc => by
    simp only [collectScriptInfo]
    rw [collectList_keys scripts _]
    simp [leafKeys]
  | NativeScript.anyOf scripts, acc => by
    simp only [collectScriptInfo]
    rw [collectList_keys scripts _]
    simp [leafKeys]
  | NativeScript.atLeast n scripts, acc => by
    simp only [collectScriptInfo]
    rw [collectList_keys scripts _]
    simp [leafKeys]
  | NativeScript.invalidBefore slot, acc => by
    simp [collectScriptInfo, leafKeys]
  | NativeScript.invalidHereafter slot, acc => by
    simp [collectScriptInfo, leafKeys]
theorem collectList_keys : ∀ (l : ScriptList) (acc : ScriptAcc),
    (collectList l acc).keys = (leafKeysL l).foldl setAdd acc.keys
  | ScriptList.nil, acc => by
    simp [collectList, leafKeysL]
  | ScriptList.cons s rest, acc => by
    simp only [collectList]
    rw [collectList_keys rest _, collect_keys s acc]
    simp [leafKeysL, List.foldl_append]
end

theorem foldl_setAdd_toFinset (l : List Str) :
    (l.foldl setAdd []).toFinset = l.toFinset := by
  apply Finset.ext
  intro x
  simp only [List.mem_toFinset]
  rw [mem_foldl_setAdd]
  simp

theorem foldl_setAdd_length_card (l : List Str) :
    (l.foldl setAdd []).length = l.toFinset.card := by
  have hnd : (l.foldl setAdd []).Nodup := nodup_foldl_setAdd l [] (by simp)
  rw [← List.toFinset_card_of_nodup hnd, foldl_setAdd_toFinset]

theorem deriveSummary_mRequired_eq (s : NativeScript) :
    (deriveSummary s).mRequired =
      (if 0 < (atLeastNs s).length then maxOfList (atLeastNs s)
       else if containsAnyB s = true then 1
       else ((leafKeys s).foldl setAdd []).length) := by
  simp [deriveSummary, collect_thresholds, collect_anyNode, collect_keys]

theorem le_foldl_max_seed (l : List Nat) (a : Nat) : a ≤ l.foldl Nat.max a := by
  induction l generalizing a with
  | nil => simp
  | cons b rest ih => exact le_trans (Nat.le_max_left a b) (ih (Nat.max a b))

theorem le_foldl_max (l : List Nat) (a x : Nat) (h : x ∈ l) :
    x ≤ l.foldl Nat.max a := by
  induction l generalizing a with
  | nil => simp at h
  | cons b rest ih =>
    rcases List.mem_cons.mp h with h1 | h1
    · subst h1
      exact le_trans (Nat.le_max_right a x) (le_foldl_max_seed rest _)
    · exact ih _ h1

theorem foldl_max_mem (l : List Nat) (a : Nat) :
    l.foldl Nat.max a = a ∨ l.foldl Nat.max a ∈ l := by
  induction l generalizing a with
  | nil => simp
  | cons b rest ih =>
    rcases ih (Nat.max a b) with h | h
    · rcases Nat.le_total a b with hab | hab
      · right
        have hmb : Nat.max a b = b := Nat.max_eq_right hab
        rw [List.foldl_cons, h, hmb]
        simp
      · left
        have hma : Nat.max a b = a := Nat.max_eq_left hab
        rw [List.foldl_cons, h, hma]
    · right
      rw [List.foldl_cons]
      simp [h]

/-- C6: on every script tree, the derived threshold is the maximum n over
    the AtLeast nodes when any exist, else 1 when any Any node exists, else
    the number of distinct pubkey key hashes of the tree. -/
theorem c6_mRequired (s : NativeScript) :
    (atLeastNs s ≠ [] →
      (deriveSummary s).mRequired ∈ atLeastNs s ∧
        ∀ x ∈ atLeastNs s, x ≤ (deriveSummary s).mRequired) ∧
    (atLeastNs s = [] → containsAnyB s = true → (deriveSummary s).mRequired = 1) ∧
    (atLeastNs s = [] → containsAnyB s = false →
      (deriveSummary s).mRequired = (leafKeys s).toFinset.card) := by
  have hm := deriveSummary_mRequired_eq s
  refine ⟨?_, ?_, ?_⟩
  · intro hne
    have hpos : 0 < (atLeastNs s).length := List.length_pos.mpr hne
    rw [hm, if_pos hpos]
    constructor
    · rcases foldl_max_mem (atLeastNs s) 0 with h | h
      · obtain ⟨x, hx⟩ := List.exists_mem_of_ne_nil _ hne
        have hx0 : x ≤ maxOfList (atLeastNs s) := le_foldl_max _ _ _ hx
        rw [maxOfList] at hx0 ⊢
        rw [h] at hx0 ⊢
        have : x = 0 := Nat.le_zero.mp hx0
        rw [← this]
        exact hx
      · exact h
    · exact fun x hx => le_foldl_max _ _ _ hx
  · intro hnil hany
    rw [hm, hnil]
    simp [hany]
  · intro hnil hany
    rw [hm, hnil]
    simp [hany, foldl_setAdd_length_card]

/-- C6 witness: spec scenario 6 — AtLeast(2, [A, B, C]) has threshold 2,
    the maximum over its AtLeast nodes. -/
theorem c6_mRequired_witness :
    (deriveSummary c6tree).mRequired ∈ atLeastNs c6tree ∧
      ∀ x ∈ atLeastNs c6tree, x ≤ (deriveSummary c6tree).mRequired :=
  (c6_mRequired c6tree).1 (by decide)

/-- C9 (amended): for a script tree with at least one pubkey leaf, all of
    whose AtLeast thresholds lie between 1 and the number of distinct
    pubkey hashes of the tree, the derived threshold lies in
    [1, number of distinct pubkey hashes]. -/
theorem c9_mRequired_bounds (s : NativeScript)
    (hkeys : leafKeys s ≠ [])
    (hns : ∀ n ∈ atLeastNs s, 1 ≤ n ∧ n ≤ (leafKeys s).toFinset.card) :
    1 ≤ (deriveSummary s).mRequired ∧
      (deriveSummary s).mRequired ≤ (leafKeys s).toFinset.card := by
  have hm := deriveSummary_mRequired_eq s
  have hcard : 1 ≤ (leafKeys s).toFinset.card := by
    obtain ⟨x, hx⟩ := List.exists_mem_of_ne_nil _ hkeys
    exact Finset.card_pos.mpr ⟨x, List.mem_toFinset.mpr hx⟩
  by_cases hth : 0 < (atLeastNs s).length
  · rw [hm, if_pos hth]
    have hne : atLeastNs s ≠ [] := by
      intro hnil
      rw [hnil] at hth
      simp at hth
    have hmem : maxOfList (atLeastNs s) ∈ atLeastNs s := by
      rcases foldl_max_mem (atLeastNs s) 0 with h | h
      · obtain ⟨x, hx⟩ := List.exists_mem_of_ne_nil _ hne
        have hx0 : x ≤ maxOfList (atLeastNs s) := le_foldl_max _ _ _ hx
        have h1 := (hns x hx).1
        rw [maxOfList] at hx0
        rw [h] at hx0
        omega
      · exact h
    exact ⟨(hns _ hmem).1, (hns _ hmem).2⟩
  · by_cases hany : containsAnyB s = true
    · rw [hm, if_neg hth]
      simp [hany, hcard]
    · rw [hm, if_neg hth]
      have hany2 : containsAnyB s = false := by
        cases hcb : containsAnyB s with
        | true => exact absurd hcb hany
        | false => rfl
      simp [hany2, foldl_setAdd_length_card, hcard]

/-- C9 witness: the bounds on the 2-of-3 tree of spec scenario 6. -/
theorem c9_bounds_witness :
    1 ≤ (deriveSummary c6tree).mRequired ∧
      (deriveSummary c6tree).mRequired ≤ (leafKeys c6tree).toFinset.card :=
  c9_mRequired_bounds c6tree (by decide) (by decide)

/-- C9 counterexample: the parseable tree AtLeast(3, [Pubkey A, Pubkey B])
    derives threshold 3 with only 2 distinct pubkey hashes, so the claimed
    upper bound fails. -/
theorem c9_bounds_counterexample :
    (deriveSummary c9tree).mRequired = 3 ∧ (leafKeys c9tree).toFinset.card = 2 ∧
      ¬ ((deriveSummary c9tree).mRequired ≤ (leafKeys c9tree).toFinset.card) := by
  decide

/-! ## Builder conservation and the min-ADA floor (C1, C7, C8) -/

theorem bind_ok {ε α β : Type} (x : Except ε α) (f : α → Except ε β) (b : β)
    (h : x >>= f = Except.ok b) : ∃ a, x = Except.ok a ∧ f a = Except.ok b := by
  cases x with
  | error e => simp [Bind.bind, Except.bind] at h
  | ok a =>
    refine ⟨a, rfl, ?_⟩
    simpa [Bind.bind, Except.bind] using h

theorem mkOutputRow_minAda (spec : OutSpec) (m : MultiAsset)
    (h : (mkOutputRow spec).value.ma = some m) :
    MIN_ADA ≤ (mkOutputRow spec).value.coin := by
  unfold mkOutputRow jsAssetsToValue bumpAdaIfTokens at h ⊢
  by_cases he : jsAssetsIsEmpty spec.assetsMap = true
  · simp [he] at h
  · by_cases hc : spec.coin < MIN_ADA
    · simp [he, hc]
    · simp [he, hc]
      omega

theorem mkChangeRow_minAda (addr : Str) (c : Nat) (ca : MultiAsset) (m : MultiAsset)
    (h : (mkChangeRow addr c ca).value.ma = some m) :
    MIN_ADA ≤ (mkChangeRow addr c ca).value.coin := by
  unfold mkChangeRow jsAssetsToValue bumpAdaIfTokens at h ⊢
  by_cases he : jsAssetsIsEmpty ca = true
  · simp [he] at h
  · by_cases hc : c < MIN_ADA
    · simp [he, hc]
    · simp [he, hc]
      omega

theorem buildFromSpecs_minAda (args : BuildArgs) (totalJS : ValueJs)
    (outSpecs : List OutSpec) (outCoin : Nat) (outAssets : MultiAsset)
    (art : Artifact)
    (hb : buildFromSpecs args totalJS outSpecs outCoin outAssets = Except.ok art) :
    ∀ r ∈ art.outputs, ∀ m, r.value.ma = some m →
      jsAssetsIsEmpty m = false → MIN_ADA ≤ r.value.coin := by
  unfold buildFromSpecs at hb
  by_cases hada : ¬ (outCoin + FIXED_FEE ≤ totalJS.coin)
  · rw [if_pos hada] at hb
    simp at hb
  · rw [if_neg hada] at hb
    obtain ⟨changeAssets, hsub, hb⟩ := bind_ok _ _ _ hb
    by_cases hfloor : jsAssetsIsEmpty changeAssets = false ∧
        totalJS.coin - outCoin - FIXED_FEE < MIN_ADA
    · rw [if_pos hfloor] at hb
      simp at hb
    · rw [if_neg hfloor] at hb
      simp only [Except.ok.injEq] at hb
      subst hb
      intro r hr m hm hne
      simp only [List.mem_append] at hr
      rcases hr with hr | hr
      · obtain ⟨spec, _, rfl⟩ := List.mem_map.mp hr
        exact mkOutputRow_minAda spec m hm
      · by_cases hchange : 0 < totalJS.coin - outCoin - FIXED_FEE ∨
            jsAssetsIsEmpty changeAssets = false
        · rw [if_pos hchange] at hr
          simp only [List.mem_singleton] at hr
          subst hr
          exact mkChangeRow_minAda _ _ _ m hm
        · rw [if_neg hchange] at hr
          simp at hr

/-- C8: every output of a successfully built transaction (change included)
    whose multiasset component is non-empty carries at least the
    min_ada_lovelace floor. -/
theorem c8_min_ada_outputs (args : BuildArgs) (art : Artifact)
    (hb : buildUnsignedTx args = Except.ok art) :
    ∀ r ∈ art.outputs, ∀ m, r.value.ma = some m →
      jsAssetsIsEmpty m = false → MIN_ADA ≤ r.value.coin := by
  obtain ⟨utxos, msAddr, mode, destAddress, outputs, requiredKeyHashes⟩ := args
  unfold buildUnsignedTx at hb
  obtain ⟨tv, htv, hb⟩ := bind_ok _ _ _ hb
  dsimp only at hb
  cases mode with
  | sendAll =>
    cases destAddress with
    | none =>
      dsimp only at hb
      exact Except.noConfusion hb
    | some dest => exact buildFromSpecs_minAda _ _ _ _ _ _ hb
  | explicit => exact buildFromSpecs_minAda _ _ _ _ _ _ hb

/-- C8 witness: the token-carrying sweep output of spec scenario 2 holds
    exactly the 2,000,000 floor. -/
theorem c8_min_ada_witness :
    MIN_ADA ≤
      (c8art.outputs.headD
        { address := [], value := { coin := 0, ma := none } }).value.coin :=
  c8_min_ada_outputs c8args c8art rfl _ (by decide)
    [(policyA, [(nameB, 7)])] (by decide) (by decide)

/-- C1: at c1args (explicit mode, pure-coin inputs, an output requesting 6
    units of an absent asset) the builder succeeds; the coin equation
    balances, but the outputs carry 6 units of (policyA, nameB) against 0
    in the inputs, so asset conservation fails without the promised
    refusal. -/
theorem c1_conservation_violation :
    (buildUnsignedTx c1args).isOk = true ∧
    inputQty c1args.utxos policyA nameB = 0 ∧
    (buildUnsignedTx c1args).toOption.map
      (fun a => outputsQty a.outputs policyA nameB) = some 6 ∧
    (buildUnsignedTx c1args).toOption.map
      (fun a => outputsCoinSum a.outputs + a.fee) = some (inputCoin c1args.utxos) := by
  decide

/-- C7: at c7args the requested outputs demand 3 units of (policyA, nameC)
    while the inputs hold none of that asset, yet the builder returns an
    artifact carrying them instead of failing with InsufficientTokens. -/
theorem c7_insufficient_tokens_missed :
    (buildUnsignedTx c7args).isOk = true ∧
    inputQty c7args.utxos policyA nameC = 0 ∧
    (buildUnsignedTx c7args).toOption.map
      (fun a => outputsQty a.outputs policyA nameC) = some 3 := by
  decide

end MultiSig
